import Mathlib

/-! Countdown timer controller (`ceshi.c`).

A shallow embedding of the 8051 countdown-timer program: the globals
`time_num`, `pause_flag`, `alarm_flag`, `cnt`, the special function
registers the program writes, the interrupt handler `timer0_isr`, the
button scanner `key_scan`, the display driver `display`, the buzzer
driver `alarm_ctrl` and one iteration of the loop of `main`.

Conventions.
* `uchar` values are naturals below `256`, `uint` values naturals below
  `65536` (the 8051 `unsigned int`); every arithmetic operation that can
  leave the range is reduced explicitly.
* A `bit` / `sbit` is a `Bool`, `true` standing for level `1`.
* The handler is one atomic step on the state; the main-loop functions
  are run to completion between handler executions.
* `timer0_isr` is the body of the handler.  Whether the hardware invokes
  it (`TR0`, `ET0`, `EA`) is not decided by the function, so an execution
  is defined in every state.
* The lines of port `P3` are inputs.  The `k`-th read of a `P3` bit made
  by an invocation of `key_scan` sees the levels `inp k`.
-/

namespace Ceshi

/-! ## Data model -/

/-- Program state: the C globals and the registers written by the program. -/
structure State where
  /-- The global `uchar time_num`. -/
  time_num : Nat
  /-- The global `bit pause_flag`. -/
  pause_flag : Bool
  /-- The global `bit alarm_flag`. -/
  alarm_flag : Bool
  /-- The global `uint cnt`. -/
  cnt : Nat
  /-- Timer 0 run control bit. -/
  TR0 : Bool
  /-- Timer 0 interrupt enable bit. -/
  ET0 : Bool
  /-- Global interrupt enable bit. -/
  EA : Bool
  /-- Timer mode register. -/
  TMOD : Nat
  /-- Timer 0 high byte. -/
  TH0 : Nat
  /-- Timer 0 low byte. -/
  TL0 : Nat
  /-- Segment port. -/
  P0 : Nat
  /-- Digit-select port. -/
  P2 : Nat
  /-- Buzzer line (active low). -/
  P1_0 : Bool
  deriving DecidableEq

/-- Levels of the four button lines at one instant (`true` = level 1 = released). -/
structure Pins where
  P3_0 : Bool
  P3_1 : Bool
  P3_2 : Bool
  P3_3 : Bool
  deriving DecidableEq

/-- A write to an output port, as observed on the pins. -/
inductive PortWrite where
  | P0 (v : Nat)
  | P2 (v : Nat)
  deriving DecidableEq

/-- The table `uchar code seg_code[]`. -/
def seg_code : List Nat :=
  [0xC0, 0xF9, 0xA4, 0xB0, 0x99, 0x92, 0x82, 0xF8, 0x80, 0x90]

/-- The busy-wait `delay(t)`: both loops count down to zero and touch only
their local counters, so the state is returned as it was. -/
def delay (_t : Nat) (s : State) : State := s

/-! ## Timer -/

/-- The function `timer0_init`. -/
def timer0_init (s : State) : State :=
  let s := { s with TMOD := 0x01 }
  let s := { s with TH0 := 0x3C }
  let s := { s with TL0 := 0xB0 }
  let s := { s with ET0 := true }
  let s := { s with EA := true }
  { s with TR0 := false }

/-- The interrupt handler `timer0_isr`, one execution. -/
def timer0_isr (s : State) : State :=
  let s := { s with TH0 := 0x3C }
  let s := { s with TL0 := 0xB0 }
  let s := { s with cnt := (s.cnt + 1) % 65536 }
  if s.cnt = 20 then
    let s := { s with cnt := 0 }
    let s :=
      if 0 < s.time_num ∧ s.pause_flag = false then
        { s with time_num := (s.time_num + 255) % 256 }
      else s
    if s.time_num = 0 then
      let s := { s with TR0 := false }
      { s with alarm_flag := true }
    else s
  else s

/-- The state after `n` consecutive executions of `timer0_isr`. -/
def isr_n (n : Nat) (s : State) : State := timer0_isr^[n] s

/-! ## Buttons -/

/-- The loop `while (line == 0);` of `key_scan`: the line is read at the
instants `k`, `k + 1`, ... until it is seen high; the result is the instant
of the next read.  At most `fuel` reads are made; `none` when they are
used up with the line still low. -/
def wait_release (line : Pins → Bool) (inp : Nat → Pins) : Nat → Nat → Option Nat
  | 0, _ => none
  | fuel + 1, k =>
    if line (inp k) = false then wait_release line inp fuel (k + 1) else some (k + 1)

/-- The body run by `key_scan` once the clear key (P3.0) is confirmed. -/
def reset_action (s : State) : State :=
  let s := { s with time_num := 24 }
  let s := { s with pause_flag := false }
  let s := { s with alarm_flag := false }
  let s := { s with TR0 := false }
  { s with P1_0 := true }

/-- The body run by `key_scan` once the start key (P3.1) is confirmed. -/
def start_action (s : State) : State := { s with TR0 := true }

/-- The body run by `key_scan` once the pause key (P3.2) is confirmed. -/
def pause_action (s : State) : State := { s with pause_flag := true }

/-- The body run by `key_scan` once the continue key (P3.3) is confirmed. -/
def resume_action (s : State) : State := { s with pause_flag := false }

/-- One of the four `if (P3_x == 0) { delay(20); if (P3_x == 0) { ...; while
(P3_x == 0); } }` blocks of `key_scan`, started at read instant `k`; the
result is the new state and the instant of the next read. -/
def key_check (line : Pins → Bool) (action : State → State) (fuel : Nat)
    (inp : Nat → Pins) (s : State) (k : Nat) : Option (State × Nat) :=
  if line (inp k) = false then
    let s := delay 20 s
    if line (inp (k + 1)) = false then
      let s := action s
      match wait_release line inp fuel (k + 2) with
      | some k' => some (s, k')
      | none => none
    else some (s, k + 2)
  else some (s, k + 1)

/-- The state left by one block: the action is applied exactly when the line
reads low on both samples. -/
def key_effect (line : Pins → Bool) (action : State → State) (inp : Nat → Pins)
    (s : State) (k : Nat) : State :=
  if line (inp k) = false ∧ line (inp (k + 1)) = false then action s else s

/-- The function `key_scan`: the four blocks in source order. -/
def key_scan (fuel : Nat) (inp : Nat → Pins) (s : State) : Option State :=
  match key_check Pins.P3_0 reset_action fuel inp s 0 with
  | none => none
  | some (s, k) =>
    match key_check Pins.P3_1 start_action fuel inp s k with
    | none => none
    | some (s, k) =>
      match key_check Pins.P3_2 pause_action fuel inp s k with
      | none => none
      | some (s, k) =>
        match key_check Pins.P3_3 resume_action fuel inp s k with
        | none => none
        | some (s, _) => some s

/-- The state left by the four blocks of `key_scan` when the second, third
and fourth block start at the read instants `k1`, `k2`, `k3`. -/
def key_scan_effect (inp : Nat → Pins) (s : State) (k1 k2 k3 : Nat) : State :=
  key_effect Pins.P3_3 resume_action inp
    (key_effect Pins.P3_2 pause_action inp
      (key_effect Pins.P3_1 start_action inp
        (key_effect Pins.P3_0 reset_action inp s 0) k1) k2) k3

/-! ## Display and buzzer -/

/-- Following the spec's words, `encode(i)` is entry `i` of the table
`C0, F9, A4, B0, 99, 92, 82, F8, 80, 90`. -/
def encode (i : Nat) : Nat :=
  [0xC0, 0xF9, 0xA4, 0xB0, 0x99, 0x92, 0x82, 0xF8, 0x80, 0x90].getD i 0

/-- The function `display`: the final state together with the port writes in
program order; `none` when a `seg_code` index lies outside the table. -/
def display (num : Nat) (s : State) : Option (State × List PortWrite) :=
  let shi := num / 10
  let ge := num % 10
  let s := { s with P2 := 0x01 }
  match seg_code[shi]? with
  | none => none
  | some v =>
    let s := { s with P0 := v }
    let s := delay 1 s
    let s := { s with P2 := 0x02 }
    match seg_code[ge]? with
    | none => none
    | some w =>
      let s := { s with P0 := w }
      let s := delay 1 s
      some (s, [PortWrite.P2 0x01, PortWrite.P0 v, PortWrite.P2 0x02, PortWrite.P0 w])

/-- The function `alarm_ctrl`. -/
def alarm_ctrl (s : State) : State :=
  if s.alarm_flag = true then { s with P1_0 := false } else { s with P1_0 := true }

/-! ## Main program -/

/-- The initialisers of the C globals, applied to arbitrary register contents. -/
def globals_init (hw : State) : State :=
  { hw with time_num := 24, pause_flag := false, alarm_flag := false, cnt := 0 }

/-- The statements of `main` before its loop. -/
def main_init (s : State) : State :=
  let s := timer0_init s
  { s with P1_0 := true }

/-- The state in which `main` enters its loop, for register contents `hw`
at power-on. -/
def init (hw : State) : State := main_init (globals_init hw)

/-- One iteration of the loop of `main`: `key_scan(); display(time_num);
alarm_ctrl();`. -/
def main_iter (fuel : Nat) (inp : Nat → Pins) (s : State) :
    Option (State × List PortWrite) :=
  match key_scan fuel inp s with
  | none => none
  | some s =>
    match display s.time_num s with
    | none => none
    | some (s, w) => some (alarm_ctrl s, w)

/-! ## Operation sequences -/

/-- The atomic operations on the shared state: a handler execution and the
four key actions. -/
inductive Op where
  | isr
  | reset
  | start
  | pause
  | resume
  deriving DecidableEq

/-- The effect of one operation. -/
def Op.apply : Op → State → State
  | Op.isr => timer0_isr
  | Op.reset => reset_action
  | Op.start => start_action
  | Op.pause => pause_action
  | Op.resume => resume_action

/-- The effect of a sequence of operations, first to last. -/
def run (ops : List Op) (s : State) : State :=
  ops.foldl (fun s o => o.apply s) s

/-- A state is reachable when some sequence of operations leads to it from
the state in which `main` enters its loop. -/
def Reachable (s : State) : Prop := ∃ hw ops, run ops (init hw) = s

/-- Button levels with every line high: no key pressed. -/
def no_key : Pins := ⟨true, true, true, true⟩

/-- Sample register contents at power-on: the 8051 reset values (ports all
ones, everything else zero). -/
def hw0 : State :=
  { time_num := 0, pause_flag := false, alarm_flag := false, cnt := 0,
    TR0 := false, ET0 := false, EA := false, TMOD := 0, TH0 := 0, TL0 := 0,
    P0 := 0xFF, P2 := 0xFF, P1_0 := true }

/-- The state after power-on and a confirmed start key: 24 seconds, running. -/
def running24 : State := start_action (init hw0)

/-- Button levels with only the clear key (P3.0) held down. -/
def reset_down : Pins := ⟨false, true, true, true⟩

/-- Sample input: the clear key is held during the first three reads and
released afterwards; no other key is touched. -/
def reset_press (k : Nat) : Pins := if k < 3 then reset_down else no_key

/-- Sample input: no key is ever pressed. -/
def idle (_k : Nat) : Pins := no_key

/-! ## Gating, program states, samples and glyphs -/

/-- An operation sequence in which the handler runs only in states with
`TR0 = 1`, the states in which the timer counts and can overflow. -/
def gated : List Op → State → Bool
  | [], _ => true
  | o :: ops, s => (o != Op.isr || s.TR0) && gated ops (o.apply s)

/-- States of the running program: from the entry of the loop of `main`,
any interleaving of handler executions, key actions, whole `key_scan`
invocations, `display(time_num)` calls and `alarm_ctrl` calls.  The order
`key_scan; display; alarm_ctrl` of the loop is one of these interleavings. -/
inductive Running : State → Prop where
  | entry (hw : State) : Running (init hw)
  | op (o : Op) (s : State) : Running s → Running (o.apply s)
  | scan (fuel : Nat) (inp : Nat → Pins) (s s' : State) :
      Running s → key_scan fuel inp s = some s' → Running s'
  | show_time (s s' : State) (w : List PortWrite) :
      Running s → display s.time_num s = some (s', w) → Running s'
  | buzzer (s : State) : Running s → Running (alarm_ctrl s)

/-- The read instant at which the block after an unconfirmed block starting
at `k` begins: one read when the line was high, two when it was low and the
re-sample was taken. -/
def next_read (line : Pins → Bool) (inp : Nat → Pins) (k : Nat) : Nat :=
  if line (inp k) = false then k + 2 else k + 1

/-- The line reads low on the first sample at `k` and on the re-sample. -/
def confirmed (line : Pins → Bool) (inp : Nat → Pins) (k : Nat) : Bool :=
  !line (inp k) && !line (inp (k + 1))

/-- The read instant at which the block following the one started at `k`
begins: after the release loop when the line was confirmed low, after the
one or two samples otherwise; `none` when the release loop uses up the
fuel. -/
def block_end (line : Pins → Bool) (fuel : Nat) (inp : Nat → Pins) (k : Nat) :
    Option Nat :=
  if confirmed line inp k = true then wait_release line inp fuel (k + 2)
  else some (next_read line inp k)

/-- Bit `i` of the byte `v`. -/
def seg_bit (v i : Nat) : Nat := v / 2 ^ i % 2

/-- Following the claim's words, the standard seven-segment glyph of each
digit, the segments `a..g` numbered `0..6` (the source comment gives the bit
order `gfedcba`): 0 abcdef, 1 bc, 2 abdeg, 3 abcdg, 4 bcfg, 5 acdfg,
6 acdefg, 7 abc, 8 abcdefg, 9 abcdfg. -/
def glyph : Nat → List Nat
  | 0 => [0, 1, 2, 3, 4, 5]
  | 1 => [1, 2]
  | 2 => [0, 1, 3, 4, 6]
  | 3 => [0, 1, 2, 3, 6]
  | 4 => [1, 2, 5, 6]
  | 5 => [0, 2, 3, 5, 6]
  | 6 => [0, 2, 3, 4, 5, 6]
  | 7 => [0, 1, 2]
  | 8 => [0, 1, 2, 3, 4, 5, 6]
  | 9 => [0, 1, 2, 3, 5, 6]
  | _ => []

/-- Button levels with only the start key (P3.1) held down. -/
def start_down : Pins := ⟨true, false, true, true⟩

/-- Sample input: the clear key is low on the reads 0 and 1 and released at
read 2; the start key is low on the reads 3 and 4 and released at read 5. -/
def reset_start_press (k : Nat) : Pins :=
  if k < 2 then reset_down else if k = 3 ∨ k = 4 then start_down else no_key

/-- Sample input: the clear line is low on the first read only, a transient. -/
def glitch (k : Nat) : Pins := if k = 0 then reset_down else no_key

/-- Sample input: the four keys pressed and released one after the other,
each low on the two samples of its block and high on the read after. -/
def all_press (k : Nat) : Pins :=
  if k < 2 then reset_down
  else if k = 3 ∨ k = 4 then start_down
  else if k = 6 ∨ k = 7 then ⟨true, true, false, true⟩
  else if k = 9 ∨ k = 10 then ⟨true, true, true, false⟩
  else no_key

/-- Sample state: loop entry, then the pause key. -/
def paused24 : State := pause_action (init hw0)

/-- Sample state: the countdown has run out (480 handler executions from
`running24`) and the start key has been pressed again. -/
def expired_started : State := start_action (isr_n 480 running24)

/-- Sample state: a second is about to complete while the timer is stopped. -/
def stopped19 : State := { init hw0 with cnt := 19 }

/-! ## Handler: single-step facts -/

theorem isr_pause_flag (s : State) : (timer0_isr s).pause_flag = s.pause_flag := by
  simp only [timer0_isr]; split_ifs <;> rfl

theorem isr_P1_0 (s : State) : (timer0_isr s).P1_0 = s.P1_0 := by
  simp only [timer0_isr]; split_ifs <;> rfl

theorem isr_paused_time (s : State) (h : s.pause_flag = true) :
    (timer0_isr s).time_num = s.time_num := by
  simp only [timer0_isr]; split_ifs <;> simp_all

/-- A handler execution that does not complete a second only counts. -/
theorem isr_count (s : State) (h : s.cnt + 1 < 20) :
    timer0_isr s = { s with TH0 := 0x3C, TL0 := 0xB0, cnt := s.cnt + 1 } := by
  have h1 : (s.cnt + 1) % 65536 = s.cnt + 1 := Nat.mod_eq_of_lt (by omega)
  simp only [timer0_isr, h1]
  rw [if_neg (by omega)]

/-- The handler execution that completes a second, field by field. -/
theorem isr_second (s : State) (h : s.cnt = 19) :
    (timer0_isr s).cnt = 0 ∧
    (timer0_isr s).time_num =
      (if 0 < s.time_num ∧ s.pause_flag = false then (s.time_num + 255) % 256
       else s.time_num) ∧
    ((timer0_isr s).time_num = 0 →
      (timer0_isr s).alarm_flag = true ∧ (timer0_isr s).TR0 = false) ∧
    ((timer0_isr s).time_num ≠ 0 →
      (timer0_isr s).alarm_flag = s.alarm_flag ∧ (timer0_isr s).TR0 = s.TR0) := by
  simp only [timer0_isr, h]
  split_ifs <;> simp_all

theorem isr_n_succ (n : Nat) (s : State) : isr_n (n + 1) s = timer0_isr (isr_n n s) := by
  simp only [isr_n, Function.iterate_succ_apply']

theorem isr_n_add (m n : Nat) (s : State) : isr_n (m + n) s = isr_n n (isr_n m s) := by
  simp only [isr_n, Nat.add_comm m n, Function.iterate_add_apply]

theorem isr_n_pause_flag (n : Nat) (s : State) : (isr_n n s).pause_flag = s.pause_flag := by
  induction n with
  | zero => rfl
  | succ n ih => rw [isr_n_succ, isr_pause_flag, ih]

theorem isr_n_paused_time (n : Nat) (s : State) (h : s.pause_flag = true) :
    (isr_n n s).time_num = s.time_num := by
  induction n with
  | zero => rfl
  | succ n ih =>
    rw [isr_n_succ, isr_paused_time _ (by rw [isr_n_pause_flag]; exact h), ih]

/-- The running, unpaused countdown after `n` handler executions, started
anywhere inside a second. -/
theorem isr_n_running (n : Nat) (s : State) (hc : s.cnt < 20)
    (hp : s.pause_flag = false) (ht : s.time_num < 256)
    (hn : (s.cnt + n) / 20 ≤ s.time_num) :
    (isr_n n s).time_num = s.time_num - (s.cnt + n) / 20 ∧
    (isr_n n s).cnt = (s.cnt + n) % 20 ∧
    ((s.cnt + n) / 20 < s.time_num →
      (isr_n n s).alarm_flag = s.alarm_flag ∧ (isr_n n s).TR0 = s.TR0) ∧
    (0 < (s.cnt + n) / 20 → (s.cnt + n) / 20 = s.time_num →
      (isr_n n s).alarm_flag = true ∧ (isr_n n s).TR0 = false) := by
  induction n with
  | zero =>
    refine ⟨by simp [isr_n]; omega, by simp [isr_n]; omega, fun _ => ⟨rfl, rfl⟩, ?_⟩
    intro h0; omega
  | succ n ih =>
    obtain ⟨iht, ihc, ihlt, iheq⟩ := ih (by omega)
    have hpn : (isr_n n s).pause_flag = false := by rw [isr_n_pause_flag]; exact hp
    rw [isr_n_succ]
    by_cases hs : (isr_n n s).cnt + 1 < 20
    · rw [isr_count _ hs]
      simp only []
      refine ⟨by rw [iht]; omega, by rw [ihc]; omega, ?_, ?_⟩
      · intro h; exact ihlt (by omega)
      · intro h0 h; exact iheq (by omega) (by omega)
    · have h19 : (isr_n n s).cnt = 19 := by omega
      obtain ⟨sc, st, sz, snz⟩ := isr_second _ h19
      have hdiv : (s.cnt + (n + 1)) / 20 = (s.cnt + n) / 20 + 1 := by omega
      have hpos : 0 < (isr_n n s).time_num := by rw [iht]; omega
      have st2 : (timer0_isr (isr_n n s)).time_num = (isr_n n s).time_num - 1 := by
        rw [st, if_pos ⟨hpos, hpn⟩]; omega
      refine ⟨by rw [st2, iht]; omega, by rw [sc]; omega, ?_, ?_⟩
      · intro h
        obtain ⟨a1, a2⟩ := snz (by rw [st2, iht]; omega)
        obtain ⟨b1, b2⟩ := ihlt (by omega)
        exact ⟨a1.trans b1, a2.trans b2⟩
      · intro _ h
        exact sz (by rw [st2, iht]; omega)

/-! ## Countdown claims -/

/-- C1 (tick accumulation): from a state with `cnt = 0`, not paused, timer
running and `time_num = t` (a `uchar`, so `t < 256`), after `N` consecutive
executions of `timer0_isr` with `N / 20 ≤ t` the remaining time is
`t - N / 20`. -/
theorem C1_tick_accumulation (s : State) (t N : Nat) (hc : s.cnt = 0)
    (hp : s.pause_flag = false) (_hr : s.TR0 = true) (ht : s.time_num = t)
    (hu : t < 256) (hN : N / 20 ≤ t) :
    (isr_n N s).time_num = t - N / 20 := by
  have h := (isr_n_running N s (by omega) hp (by omega) (by rw [hc, ht]; simpa using hN)).1
  rw [h, hc, ht]; simp

theorem C1_tick_accumulation_witness :
    (isr_n 100 running24).time_num = 24 - 100 / 20 :=
  C1_tick_accumulation running24 24 100 rfl rfl rfl rfl (by decide) (by decide)

/-- C2 (full countdown): for `t` in `1..99`, from `time_num = t`, `cnt = 0`,
not paused, not alarming, timer running, exactly `20 * t` executions of
`timer0_isr` give `time_num = 0`, `alarm_flag = 1`, `TR0 = 0`, and after any
smaller number of executions `time_num > 0`, `alarm_flag = 0`, `TR0 = 1`. -/
theorem C2_full_countdown (s : State) (t : Nat) (h1 : 1 ≤ t) (h99 : t ≤ 99)
    (ht : s.time_num = t) (hc : s.cnt = 0) (hp : s.pause_flag = false)
    (ha : s.alarm_flag = false) (hr : s.TR0 = true) :
    ((isr_n (20 * t) s).time_num = 0 ∧ (isr_n (20 * t) s).alarm_flag = true ∧
      (isr_n (20 * t) s).TR0 = false) ∧
    ∀ n, n < 20 * t →
      0 < (isr_n n s).time_num ∧ (isr_n n s).alarm_flag = false ∧
        (isr_n n s).TR0 = true := by
  constructor
  · obtain ⟨a, _, _, d⟩ :=
      isr_n_running (20 * t) s (by omega) hp (by omega) (by rw [hc, ht]; omega)
    obtain ⟨d1, d2⟩ := d (by rw [hc]; omega) (by rw [hc, ht]; omega)
    exact ⟨by rw [a, hc, ht]; omega, d1, d2⟩
  · intro n hn
    obtain ⟨a, _, c, _⟩ :=
      isr_n_running n s (by omega) hp (by omega) (by rw [hc, ht]; omega)
    obtain ⟨c1, c2⟩ := c (by rw [hc, ht]; omega)
    exact ⟨by rw [a, hc, ht]; omega, c1.trans ha, c2.trans hr⟩

theorem C2_full_countdown_witness :
    ((isr_n (20 * 24) running24).time_num = 0 ∧
      (isr_n (20 * 24) running24).alarm_flag = true ∧
      (isr_n (20 * 24) running24).TR0 = false) ∧
    ∀ n, n < 20 * 24 →
      0 < (isr_n n running24).time_num ∧ (isr_n n running24).alarm_flag = false ∧
        (isr_n n running24).TR0 = true :=
  C2_full_countdown running24 24 (by decide) (by decide) rfl rfl rfl rfl rfl

/-- C3 (pause freezes the countdown): from any state with `pause_flag = 1`,
any number of consecutive executions of `timer0_isr` leaves `time_num` at
its value before the first execution. -/
theorem C3_pause_freezes (s : State) (n : Nat) (hp : s.pause_flag = true) :
    (isr_n n s).time_num = s.time_num :=
  isr_n_paused_time n s hp

theorem C3_pause_freezes_witness :
    (isr_n 200 (pause_action running24)).time_num = (pause_action running24).time_num :=
  C3_pause_freezes (pause_action running24) 200 rfl

/-- C4 (expiry is one update): whenever one execution of `timer0_isr` takes
`time_num` from a non-zero value to `0`, the state after that execution has
`alarm_flag = 1` and `TR0 = 0`. -/
theorem C4_expiry_atomic (s : State) (h0 : s.time_num ≠ 0)
    (h1 : (timer0_isr s).time_num = 0) :
    (timer0_isr s).alarm_flag = true ∧ (timer0_isr s).TR0 = false := by
  simp only [timer0_isr] at h1 ⊢
  split_ifs at h1 ⊢ <;> simp_all

theorem C4_expiry_atomic_witness :
    (timer0_isr { running24 with time_num := 1, cnt := 19 }).alarm_flag = true ∧
    (timer0_isr { running24 with time_num := 1, cnt := 19 }).TR0 = false :=
  C4_expiry_atomic { running24 with time_num := 1, cnt := 19 } (by decide) (by decide)

/-! ## Buttons: termination and effect of one block -/

/-- The release loop ends at the first instant at which the line is high. -/
theorem wait_release_eq (line : Pins → Bool) (inp : Nat → Pins) :
    ∀ (fuel k r : Nat), k ≤ r → line (inp r) = true →
      (∀ j, k ≤ j → j < r → line (inp j) = false) → r - k < fuel →
      wait_release line inp fuel k = some (r + 1) := by
  intro fuel
  induction fuel with
  | zero => intro k r _ _ _ hf; omega
  | succ fuel ih =>
    intro k r hkr hr hlow hf
    by_cases hk : k = r
    · subst hk
      simp [wait_release, hr]
    · have hl : line (inp k) = false := hlow k (le_refl k) (by omega)
      simp only [wait_release, hl, if_true]
      exact ih (k + 1) r (by omega) hr (fun j h1 h2 => hlow j (by omega) h2) (by omega)

/-- The release loop, when it ends, ends after a read that saw the line high
with every earlier read low. -/
theorem wait_release_some (line : Pins → Bool) (inp : Nat → Pins) :
    ∀ (fuel k k' : Nat), wait_release line inp fuel k = some k' →
      k < k' ∧ line (inp (k' - 1)) = true ∧
        ∀ j, k ≤ j → j < k' - 1 → line (inp j) = false := by
  intro fuel
  induction fuel with
  | zero => intro k k' h; simp [wait_release] at h
  | succ fuel ih =>
    intro k k' h
    by_cases hl : line (inp k) = false
    · simp only [wait_release, hl, if_true] at h
      obtain ⟨a, b, c⟩ := ih (k + 1) k' h
      refine ⟨by omega, b, fun j h1 h2 => ?_⟩
      by_cases hj : j = k
      · rw [hj]; exact hl
      · exact c j (by omega) h2
    · simp only [wait_release, hl, if_false] at h
      have hk : k' = k + 1 := by injection h with h; exact h.symm
      subst hk
      refine ⟨by omega, by simpa using hl, fun j h1 h2 => ?_⟩
      simp at h2; omega

theorem exists_first_high (line : Pins → Bool) (inp : Nat → Pins) (k : Nat)
    (h : ∃ r, k ≤ r ∧ line (inp r) = true) :
    ∃ r, k ≤ r ∧ line (inp r) = true ∧ ∀ j, k ≤ j → j < r → line (inp j) = false := by
  classical
  refine ⟨Nat.find h, (Nat.find_spec h).1, (Nat.find_spec h).2, fun j h1 h2 => ?_⟩
  have := Nat.find_min h h2
  by_contra hc
  exact this ⟨h1, by simpa using hc⟩

theorem key_check_state (line : Pins → Bool) (action : State → State) (fuel : Nat)
    (inp : Nat → Pins) (s s' : State) (k k' : Nat)
    (h : key_check line action fuel inp s k = some (s', k')) :
    s' = key_effect line action inp s k := by
  simp only [key_check, delay, key_effect] at h ⊢
  split_ifs at h ⊢ <;> simp_all
  · split at h <;> simp_all

theorem key_check_high (line : Pins → Bool) (action : State → State) (fuel : Nat)
    (inp : Nat → Pins) (s : State) (k : Nat) (h : line (inp k) = true) :
    key_check line action fuel inp s k = some (s, k + 1) := by
  simp [key_check, h]

/-- A block returns, with a result that does not depend on the fuel, as soon as
the fuel covers the reads up to the release of its line. -/
theorem key_check_returns (line : Pins → Bool) (action : State → State)
    (inp : Nat → Pins) (s : State) (k : Nat) (h : ∃ r, k ≤ r ∧ line (inp r) = true) :
    ∃ fuel0 k', ∀ fuel, fuel0 ≤ fuel →
      key_check line action fuel inp s k = some (key_effect line action inp s k, k') := by
  by_cases h0 : line (inp k) = false
  · by_cases h1 : line (inp (k + 1)) = false
    · obtain ⟨r, hkr, hr⟩ := h
      have hr2 : k + 2 ≤ r := by
        by_contra hc
        have : r = k ∨ r = k + 1 := by omega
        rcases this with e | e <;> subst e <;> simp_all
      obtain ⟨q, hq, hqh, hql⟩ := exists_first_high line inp (k + 2) ⟨r, hr2, hr⟩
      refine ⟨q + 1, q + 1, fun fuel hf => ?_⟩
      have := wait_release_eq line inp fuel (k + 2) q hq hqh hql (by omega)
      simp [key_check, key_effect, delay, h0, h1, this]
    · refine ⟨0, k + 2, fun fuel _ => ?_⟩
      simp [key_check, key_effect, delay, h0, h1]
  · refine ⟨0, k + 1, fun fuel _ => ?_⟩
    simp [key_check, key_effect, h0]

/-- With the other three lines high at every read, `key_scan` is its first
block. -/
theorem key_scan_reset_only (fuel : Nat) (inp : Nat → Pins) (s : State)
    (ho : ∀ k, (inp k).P3_1 = true ∧ (inp k).P3_2 = true ∧ (inp k).P3_3 = true) :
    key_scan fuel inp s =
      (key_check Pins.P3_0 reset_action fuel inp s 0).map Prod.fst := by
  unfold key_scan
  cases h : key_check Pins.P3_0 reset_action fuel inp s 0 with
  | none => rfl
  | some p =>
    obtain ⟨s1, k1⟩ := p
    simp only [Option.map_some']
    rw [key_check_high Pins.P3_1 start_action fuel inp s1 k1 (ho k1).1]
    simp only []
    rw [key_check_high Pins.P3_2 pause_action fuel inp s1 (k1 + 1) (ho (k1 + 1)).2.1]
    simp only []
    rw [key_check_high Pins.P3_3 resume_action fuel inp s1 (k1 + 1 + 1) (ho (k1 + 1 + 1)).2.2]

/-- The state returned by `key_scan` is the one left by its four blocks. -/
theorem key_scan_state (fuel : Nat) (inp : Nat → Pins) (s s' : State)
    (h : key_scan fuel inp s = some s') :
    ∃ k1 k2 k3, s' = key_scan_effect inp s k1 k2 k3 := by
  unfold key_scan at h
  cases h0 : key_check Pins.P3_0 reset_action fuel inp s 0 with
  | none => rw [h0] at h; simp at h
  | some p0 =>
    obtain ⟨s0, k1⟩ := p0
    rw [h0] at h; simp only [] at h
    cases h1 : key_check Pins.P3_1 start_action fuel inp s0 k1 with
    | none => rw [h1] at h; simp at h
    | some p1 =>
      obtain ⟨s1, k2⟩ := p1
      rw [h1] at h; simp only [] at h
      cases h2 : key_check Pins.P3_2 pause_action fuel inp s1 k2 with
      | none => rw [h2] at h; simp at h
      | some p2 =>
        obtain ⟨s2, k3⟩ := p2
        rw [h2] at h; simp only [] at h
        cases h3 : key_check Pins.P3_3 resume_action fuel inp s2 k3 with
        | none => rw [h3] at h; simp at h
        | some p3 =>
          obtain ⟨s3, k4⟩ := p3
          rw [h3] at h
          have e : s3 = s' := by simpa using h
          refine ⟨k1, k2, k3, ?_⟩
          rw [← e, key_check_state _ _ _ _ _ _ _ _ h3, key_check_state _ _ _ _ _ _ _ _ h2,
            key_check_state _ _ _ _ _ _ _ _ h1, key_check_state _ _ _ _ _ _ _ _ h0]
          rfl

/-- When every line is high again at some read after any given one (no key
is held for ever), `key_scan` returns for all sufficiently large fuel. -/
theorem key_scan_returns (inp : Nat → Pins) (s : State)
    (r0 : ∀ k, ∃ r, k ≤ r ∧ (inp r).P3_0 = true)
    (r1 : ∀ k, ∃ r, k ≤ r ∧ (inp r).P3_1 = true)
    (r2 : ∀ k, ∃ r, k ≤ r ∧ (inp r).P3_2 = true)
    (r3 : ∀ k, ∃ r, k ≤ r ∧ (inp r).P3_3 = true) :
    ∃ fuel0 k1 k2 k3, ∀ fuel, fuel0 ≤ fuel →
      key_scan fuel inp s = some (key_scan_effect inp s k1 k2 k3) := by
  obtain ⟨f0, k1, e0⟩ := key_check_returns Pins.P3_0 reset_action inp s 0 (r0 0)
  obtain ⟨f1, k2, e1⟩ := key_check_returns Pins.P3_1 start_action inp
    (key_effect Pins.P3_0 reset_action inp s 0) k1 (r1 k1)
  obtain ⟨f2, k3, e2⟩ := key_check_returns Pins.P3_2 pause_action inp
    (key_effect Pins.P3_1 start_action inp
      (key_effect Pins.P3_0 reset_action inp s 0) k1) k2 (r2 k2)
  obtain ⟨f3, k4, e3⟩ := key_check_returns Pins.P3_3 resume_action inp
    (key_effect Pins.P3_2 pause_action inp
      (key_effect Pins.P3_1 start_action inp
        (key_effect Pins.P3_0 reset_action inp s 0) k1) k2) k3 (r3 k3)
  refine ⟨f0 + f1 + f2 + f3, k1, k2, k3, fun fuel hf => ?_⟩
  unfold key_scan
  rw [e0 fuel (by omega)]; simp only []
  rw [e1 fuel (by omega)]; simp only []
  rw [e2 fuel (by omega)]; simp only []
  rw [e3 fuel (by omega)]
  rfl

/-! ## Reset -/

/-- C5 (reset is total and state-independent): from every prior state, a
`key_scan` in which the clear key P3.0 reads low on both samples (and is
released at some later read `r`) while no other key is pressed returns, and
the state it returns has `time_num = 24`, `pause_flag = 0`, `alarm_flag = 0`,
`TR0 = 0` and the buzzer line `P1_0 = 1`. -/
theorem C5_reset_total (s : State) (inp : Nat → Pins) (r : Nat)
    (h0 : (inp 0).P3_0 = false) (h1 : (inp 1).P3_0 = false)
    (hr : (inp r).P3_0 = true)
    (ho : ∀ k, (inp k).P3_1 = true ∧ (inp k).P3_2 = true ∧ (inp k).P3_3 = true) :
    (∃ fuel s', key_scan fuel inp s = some s') ∧
    ∀ fuel s', key_scan fuel inp s = some s' →
      s'.time_num = 24 ∧ s'.pause_flag = false ∧ s'.alarm_flag = false ∧
        s'.TR0 = false ∧ s'.P1_0 = true := by
  have heff : key_effect Pins.P3_0 reset_action inp s 0 = reset_action s := by
    simp [key_effect, h0, h1]
  constructor
  · obtain ⟨fuel0, k', hk⟩ :=
      key_check_returns Pins.P3_0 reset_action inp s 0 ⟨r, Nat.zero_le r, hr⟩
    refine ⟨fuel0, reset_action s, ?_⟩
    rw [key_scan_reset_only fuel0 inp s ho, hk fuel0 (le_refl _), heff]
    rfl
  · intro fuel s' h
    rw [key_scan_reset_only fuel inp s ho] at h
    cases hc : key_check Pins.P3_0 reset_action fuel inp s 0 with
    | none => rw [hc] at h; simp at h
    | some p =>
      obtain ⟨s1, k1⟩ := p
      rw [hc] at h
      have e : s1 = s' := by simpa using h
      have := key_check_state _ _ _ _ _ _ _ _ hc
      rw [heff] at this
      rw [← e, this]
      simp [reset_action]

theorem C5_reset_total_witness :
    (∃ fuel s', key_scan fuel reset_press (isr_n 480 running24) = some s') ∧
    ∀ fuel s', key_scan fuel reset_press (isr_n 480 running24) = some s' →
      s'.time_num = 24 ∧ s'.pause_flag = false ∧ s'.alarm_flag = false ∧
        s'.TR0 = false ∧ s'.P1_0 = true :=
  C5_reset_total (isr_n 480 running24) reset_press 3 rfl rfl rfl
    (fun k => by unfold reset_press; split_ifs <;> decide)

/-! ## Invariants of the operation sequences -/

/-- One handler execution keeps `time_num` or takes exactly one off a
positive value: the 8-bit decrement does not wrap. -/
theorem isr_time_cases (s : State) (h : s.time_num < 256) :
    (timer0_isr s).time_num = s.time_num ∨
      (0 < s.time_num ∧ (timer0_isr s).time_num + 1 = s.time_num) := by
  simp only [timer0_isr]
  split_ifs <;> simp_all <;> omega

theorem isr_cnt (s : State) (h : s.cnt < 20) : (timer0_isr s).cnt = (s.cnt + 1) % 20 := by
  by_cases hs : s.cnt + 1 < 20
  · rw [isr_count s hs]; simp only []; omega
  · rw [(isr_second s (by omega)).1]; omega

theorem isr_n_cnt (n : Nat) (s : State) (h : s.cnt < 20) :
    (isr_n n s).cnt = (s.cnt + n) % 20 := by
  induction n with
  | zero => simp [isr_n]; omega
  | succ n ih =>
    rw [isr_n_succ, isr_cnt _ (by rw [ih]; omega), ih]; omega

theorem op_time_le (op : Op) (s : State) (h : s.time_num ≤ 99) :
    (op.apply s).time_num ≤ 99 := by
  cases op with
  | isr =>
    have := isr_time_cases s (by omega)
    simp only [Op.apply]; omega
  | reset => simp [Op.apply, reset_action]
  | start => simpa [Op.apply, start_action] using h
  | pause => simpa [Op.apply, pause_action] using h
  | resume => simpa [Op.apply, resume_action] using h

theorem isr_alarm_iff (s : State) (h : s.alarm_flag = true ↔ s.time_num = 0) :
    (timer0_isr s).alarm_flag = true ↔ (timer0_isr s).time_num = 0 := by
  simp only [timer0_isr]
  split_ifs <;> simp_all
  omega

theorem op_alarm_iff (op : Op) (s : State) (h : s.alarm_flag = true ↔ s.time_num = 0) :
    (op.apply s).alarm_flag = true ↔ (op.apply s).time_num = 0 := by
  cases op with
  | isr => exact isr_alarm_iff s h
  | reset => simp [Op.apply, reset_action]
  | start => simpa [Op.apply, start_action] using h
  | pause => simpa [Op.apply, pause_action] using h
  | resume => simpa [Op.apply, resume_action] using h

/-- A property kept by every operation is kept by every sequence. -/
theorem run_invariant (P : State → Prop) (hstep : ∀ op s, P s → P (Op.apply op s))
    (ops : List Op) : ∀ s, P s → P (run ops s) := by
  induction ops with
  | nil => intro s h; exact h
  | cons o ops ih => intro s h; exact ih _ (hstep o s h)

theorem key_effect_time_le (line : Pins → Bool) (op : Op) (inp : Nat → Pins)
    (s : State) (k : Nat) (h : s.time_num ≤ 99) :
    (key_effect line op.apply inp s k).time_num ≤ 99 := by
  unfold key_effect
  split_ifs
  · exact op_time_le op s h
  · exact h

theorem key_scan_effect_time_le (inp : Nat → Pins) (s : State) (k1 k2 k3 : Nat)
    (h : s.time_num ≤ 99) : (key_scan_effect inp s k1 k2 k3).time_num ≤ 99 :=
  key_effect_time_le _ Op.resume _ _ _ (key_effect_time_le _ Op.pause _ _ _
    (key_effect_time_le _ Op.start _ _ _ (key_effect_time_le _ Op.reset _ _ _ h)))

/-- C6 (range invariant): `time_num ≤ 99` holds when `main` enters its loop,
is kept by `timer0_isr` and by each of the Reset, Start, Pause and Resume
actions (and by a whole `key_scan`), the decrement in `timer0_isr` never
wraps below zero, and so `time_num ≤ 99` in every reachable state. -/
theorem C6_range_invariant :
    (∀ hw, (init hw).time_num ≤ 99) ∧
    (∀ (op : Op) (s : State), s.time_num ≤ 99 → (op.apply s).time_num ≤ 99) ∧
    (∀ fuel inp (s s' : State), s.time_num ≤ 99 → key_scan fuel inp s = some s' →
      s'.time_num ≤ 99) ∧
    (∀ s : State, s.time_num < 256 →
      (timer0_isr s).time_num = s.time_num ∨
        (0 < s.time_num ∧ (timer0_isr s).time_num + 1 = s.time_num)) ∧
    (∀ s, Reachable s → s.time_num ≤ 99) := by
  refine ⟨fun hw => by simp [init, main_init, timer0_init, globals_init], op_time_le,
    ?_, isr_time_cases, ?_⟩
  · intro fuel inp s s' h hk
    obtain ⟨k1, k2, k3, e⟩ := key_scan_state fuel inp s s' hk
    rw [e]; exact key_scan_effect_time_le inp s k1 k2 k3 h
  · rintro s ⟨hw, ops, rfl⟩
    exact run_invariant (fun s => s.time_num ≤ 99) op_time_le ops _
      (by simp [init, main_init, timer0_init, globals_init])

theorem C6_range_invariant_witness :
    (run [Op.start, Op.isr, Op.pause, Op.resume, Op.reset] (init hw0)).time_num ≤ 99 :=
  C6_range_invariant.2.2.2.2 _
    ⟨hw0, [Op.start, Op.isr, Op.pause, Op.resume, Op.reset], rfl⟩

/-- C7 (alarm invariant): in every state reachable from the initial state by
handler executions and Reset/Start/Pause/Resume actions, `alarm_flag` is set
if and only if `time_num = 0`. -/
theorem C7_alarm_invariant (s : State) (h : Reachable s) :
    s.alarm_flag = true ↔ s.time_num = 0 := by
  obtain ⟨hw, ops, rfl⟩ := h
  exact run_invariant (fun s => s.alarm_flag = true ↔ s.time_num = 0) op_alarm_iff ops _
    (by simp [init, main_init, timer0_init, globals_init])

theorem C7_alarm_invariant_witness :
    (run (Op.start :: List.replicate 480 Op.isr) (init hw0)).alarm_flag = true ↔
      (run (Op.start :: List.replicate 480 Op.isr) (init hw0)).time_num = 0 :=
  C7_alarm_invariant _ ⟨hw0, Op.start :: List.replicate 480 Op.isr, rfl⟩

/-- C8 (pause/resume scenario): for `a + b ≤ t ≤ 99`, from `time_num = t`,
`cnt = 0`, not paused, timer running: `20 * a` handler executions, the Pause
action, `20 * p` executions, the Resume action and `20 * b` executions give
`time_num = t - a - b`, and `time_num = t - a` after every number of
executions inside the paused phase. -/
theorem C8_pause_resume (s : State) (t a p b : Nat) (hab : a + b ≤ t) (ht99 : t ≤ 99)
    (ht : s.time_num = t) (hc : s.cnt = 0) (hp : s.pause_flag = false)
    (_hr : s.TR0 = true) :
    (isr_n (20 * b) (resume_action (isr_n (20 * p) (pause_action
      (isr_n (20 * a) s))))).time_num = t - a - b ∧
    ∀ j, j ≤ 20 * p →
      (isr_n j (pause_action (isr_n (20 * a) s))).time_num = t - a := by
  obtain ⟨e1, c1, _, _⟩ :=
    isr_n_running (20 * a) s (by omega) hp (by omega) (by rw [hc, ht]; omega)
  have e1' : (isr_n (20 * a) s).time_num = t - a := by rw [e1, hc, ht]; omega
  have c1' : (isr_n (20 * a) s).cnt = 0 := by rw [c1, hc]; omega
  have hpz : ∀ j, (isr_n j (pause_action (isr_n (20 * a) s))).time_num = t - a := by
    intro j
    rw [isr_n_paused_time j _ rfl]
    exact e1'
  refine ⟨?_, fun j _ => hpz j⟩
  have c3 : (isr_n (20 * p) (pause_action (isr_n (20 * a) s))).cnt = 0 := by
    rw [isr_n_cnt _ _ (by show (isr_n (20 * a) s).cnt < 20; omega)]
    show ((isr_n (20 * a) s).cnt + 20 * p) % 20 = 0
    omega
  have t3 := hpz (20 * p)
  obtain ⟨e5, _, _, _⟩ :=
    isr_n_running (20 * b)
      (resume_action (isr_n (20 * p) (pause_action (isr_n (20 * a) s))))
      (by show (isr_n (20 * p) (pause_action (isr_n (20 * a) s))).cnt < 20; omega)
      rfl
      (by show (isr_n (20 * p) (pause_action (isr_n (20 * a) s))).time_num < 256; omega)
      (by
        show ((isr_n (20 * p) (pause_action (isr_n (20 * a) s))).cnt + 20 * b) / 20 ≤
          (isr_n (20 * p) (pause_action (isr_n (20 * a) s))).time_num
        omega)
  rw [e5]
  show (isr_n (20 * p) (pause_action (isr_n (20 * a) s))).time_num -
    ((isr_n (20 * p) (pause_action (isr_n (20 * a) s))).cnt + 20 * b) / 20 = t - a - b
  omega

theorem C8_pause_resume_witness :
    (isr_n (20 * 5) (resume_action (isr_n (20 * 10) (pause_action
      (isr_n (20 * 5) running24))))).time_num = 24 - 5 - 5 ∧
    ∀ j, j ≤ 20 * 10 →
      (isr_n j (pause_action (isr_n (20 * 5) running24))).time_num = 24 - 5 :=
  C8_pause_resume running24 24 5 10 5 (by decide) (by decide) rfl rfl rfl rfl

/-! ## Display and buzzer -/

theorem seg_code_lookup (i : Nat) (h : i < 10) : seg_code[i]? = some (encode i) := by
  interval_cases i <;> rfl

theorem display_eq (num : Nat) (s : State) (h : num ≤ 99) :
    display num s =
      some ({ s with P2 := 0x02, P0 := encode (num % 10) },
        [PortWrite.P2 0x01, PortWrite.P0 (encode (num / 10)),
         PortWrite.P2 0x02, PortWrite.P0 (encode (num % 10))]) := by
  have h1 := seg_code_lookup (num / 10) (by omega)
  have h2 := seg_code_lookup (num % 10) (by omega)
  simp only [display, delay]
  rw [h1]; simp only []
  rw [h2]

/-- C9 (digit split and encoding): `seg_code` is the table `C0, F9, A4, B0,
99, 92, 82, F8, 80, 90` entry for entry, `encode 0 = 0xC0`, `encode 9 = 0x90`,
and for every `num` in `0..99`, `display num` writes `P2 = 0x01`, then
`P0 = encode (num / 10)`, then `P2 = 0x02`, then `P0 = encode (num % 10)`. -/
theorem C9_display_digits :
    seg_code.length = 10 ∧ (∀ i, i < 10 → seg_code[i]? = some (encode i)) ∧
    encode 0 = 0xC0 ∧ encode 9 = 0x90 ∧
    ∀ (num : Nat) (s : State), num ≤ 99 →
      ∃ s', display num s = some (s',
        [PortWrite.P2 0x01, PortWrite.P0 (encode (num / 10)),
         PortWrite.P2 0x02, PortWrite.P0 (encode (num % 10))]) ∧
        s'.P2 = 0x02 ∧ s'.P0 = encode (num % 10) :=
  ⟨rfl, seg_code_lookup, rfl, rfl, fun num s h => ⟨_, display_eq num s h, rfl, rfl⟩⟩

theorem C9_display_digits_witness :
    ∃ s', display 7 running24 = some (s',
      [PortWrite.P2 0x01, PortWrite.P0 0xC0, PortWrite.P2 0x02, PortWrite.P0 0xF8]) ∧
      s'.P2 = 0x02 ∧ s'.P0 = 0xF8 :=
  C9_display_digits.2.2.2.2 7 running24 (by decide)

theorem alarm_ctrl_eq (s : State) : alarm_ctrl s = { s with P1_0 := !s.alarm_flag } := by
  unfold alarm_ctrl
  cases h : s.alarm_flag <;> simp

/-- C10 (alarm actuator): after `alarm_ctrl` the buzzer line `P1_0` is `0`
exactly when `alarm_flag` is set and `1` otherwise, no other variable is
changed, and every iteration of the loop of `main` ends with `P1_0` equal to
the negation of `alarm_flag`; an iteration does end whenever `time_num ≤ 99`
and no key is held for ever. -/
theorem C10_alarm_actuator :
    (∀ s : State, ((alarm_ctrl s).P1_0 = false ↔ s.alarm_flag = true) ∧
      ((alarm_ctrl s).P1_0 = true ↔ s.alarm_flag = false) ∧
      alarm_ctrl s = { s with P1_0 := !s.alarm_flag }) ∧
    (∀ fuel inp (s s' : State) w, main_iter fuel inp s = some (s', w) →
      s'.P1_0 = !s'.alarm_flag) ∧
    (∀ inp (s : State), s.time_num ≤ 99 →
      (∀ k, ∃ r, k ≤ r ∧ (inp r).P3_0 = true) → (∀ k, ∃ r, k ≤ r ∧ (inp r).P3_1 = true) →
      (∀ k, ∃ r, k ≤ r ∧ (inp r).P3_2 = true) → (∀ k, ∃ r, k ≤ r ∧ (inp r).P3_3 = true) →
      ∃ fuel s' w, main_iter fuel inp s = some (s', w)) := by
  refine ⟨fun s => ?_, ?_, ?_⟩
  · rw [alarm_ctrl_eq]
    cases h : s.alarm_flag <;> simp
  · intro fuel inp s s' w h
    unfold main_iter at h
    cases hk : key_scan fuel inp s with
    | none => rw [hk] at h; simp at h
    | some s1 =>
      rw [hk] at h; simp only [] at h
      cases hd : display s1.time_num s1 with
      | none => rw [hd] at h; simp at h
      | some q =>
        obtain ⟨s2, w2⟩ := q
        rw [hd] at h
        have e : alarm_ctrl s2 = s' := by
          simp only [Option.some.injEq, Prod.mk.injEq] at h
          exact h.1
        rw [← e, alarm_ctrl_eq]
  · intro inp s hs r0 r1 r2 r3
    obtain ⟨fuel0, k1, k2, k3, hk⟩ := key_scan_returns inp s r0 r1 r2 r3
    have hle := key_scan_effect_time_le inp s k1 k2 k3 hs
    have e : main_iter fuel0 inp s =
        some (alarm_ctrl { key_scan_effect inp s k1 k2 k3 with
            P2 := 0x02, P0 := encode ((key_scan_effect inp s k1 k2 k3).time_num % 10) },
          [PortWrite.P2 0x01,
           PortWrite.P0 (encode ((key_scan_effect inp s k1 k2 k3).time_num / 10)),
           PortWrite.P2 0x02,
           PortWrite.P0 (encode ((key_scan_effect inp s k1 k2 k3).time_num % 10))]) := by
      unfold main_iter
      rw [hk fuel0 (le_refl _)]; simp only []
      rw [display_eq _ _ hle]
    exact ⟨fuel0, _, _, e⟩

theorem C10_alarm_actuator_witness :
    ∃ fuel s' w, main_iter fuel idle running24 = some (s', w) :=
  C10_alarm_actuator.2.2 idle running24 (by decide)
    (fun k => ⟨k, le_refl k, rfl⟩) (fun k => ⟨k, le_refl k, rfl⟩)
    (fun k => ⟨k, le_refl k, rfl⟩) (fun k => ⟨k, le_refl k, rfl⟩)

/-! ## Key actions: frame -/

theorem key_effect_high (line : Pins → Bool) (action : State → State) (inp : Nat → Pins)
    (s : State) (k : Nat) (h : line (inp k) = true) :
    key_effect line action inp s k = s := by
  simp [key_effect, h]

theorem key_effect_cases (line : Pins → Bool) (action : State → State) (inp : Nat → Pins)
    (s : State) (k : Nat) :
    key_effect line action inp s k = s ∨ key_effect line action inp s k = action s := by
  unfold key_effect
  split_ifs
  · exact Or.inr rfl
  · exact Or.inl rfl

/-- The three blocks after the clear block leave `time_num`, `alarm_flag`,
`cnt` and `P1_0` as they were. -/
theorem later_blocks_frame (inp : Nat → Pins) (s : State) (k1 k2 k3 : Nat) :
    let s' := key_effect Pins.P3_3 resume_action inp
      (key_effect Pins.P3_2 pause_action inp
        (key_effect Pins.P3_1 start_action inp s k1) k2) k3
    s'.time_num = s.time_num ∧ s'.alarm_flag = s.alarm_flag ∧ s'.cnt = s.cnt ∧
      s'.P1_0 = s.P1_0 := by
  simp only [key_effect, start_action, pause_action, resume_action]
  split_ifs <;> simp

/-- C11 (one flag per action): Start writes `TR0 = 1`, Pause writes
`pause_flag = 1`, Resume writes `pause_flag = 0`, each leaving every other
variable as it was; Start on a running state returns the same state; Pause
and Resume keep `time_num`; and a whole `key_scan` in which the clear line is
never low changes none of `time_num`, `alarm_flag`, `cnt`, `P1_0`. -/
theorem C11_single_flag_actions :
    (∀ s : State, start_action s = { s with TR0 := true } ∧
      pause_action s = { s with pause_flag := true } ∧
      resume_action s = { s with pause_flag := false }) ∧
    (∀ s : State, s.TR0 = true → start_action s = s) ∧
    (∀ s : State, (pause_action s).time_num = s.time_num ∧
      (resume_action s).time_num = s.time_num) ∧
    (∀ fuel inp (s s' : State), (∀ k, (inp k).P3_0 = true) →
      key_scan fuel inp s = some s' →
      s'.time_num = s.time_num ∧ s'.alarm_flag = s.alarm_flag ∧ s'.cnt = s.cnt ∧
        s'.P1_0 = s.P1_0) := by
  refine ⟨fun s => ⟨rfl, rfl, rfl⟩, ?_, fun s => ⟨rfl, rfl⟩, ?_⟩
  · intro s h
    cases s
    simp_all [start_action]
  · intro fuel inp s s' h0 hk
    obtain ⟨k1, k2, k3, e⟩ := key_scan_state fuel inp s s' hk
    rw [e, key_scan_effect, key_effect_high Pins.P3_0 reset_action inp s 0 (h0 0)]
    exact later_blocks_frame inp s k1 k2 k3

theorem C11_single_flag_actions_witness : start_action running24 = running24 :=
  C11_single_flag_actions.2.1 running24 rfl

/-! ## Timer gating -/

theorem isr_TR0_of_true (s : State) (h : (timer0_isr s).TR0 = true) : s.TR0 = true := by
  simp only [timer0_isr] at h
  split_ifs at h <;> simp_all

theorem gated_no_start (ops : List Op) :
    ∀ s : State, s.TR0 = false → s.time_num = 24 → gated ops s = true → Op.start ∉ ops →
      (run ops s).time_num = 24 ∧ (run ops s).TR0 = false ∧ Op.isr ∉ ops := by
  induction ops with
  | nil => intro s h1 h2 _ _; exact ⟨h2, h1, List.not_mem_nil _⟩
  | cons o ops ih =>
    intro s h1 h2 hg hs
    simp only [gated, Bool.and_eq_true, Bool.or_eq_true, h1] at hg
    have hs' : Op.start ∉ ops := fun hm => hs (List.mem_cons_of_mem _ hm)
    have ho : o ≠ Op.start := fun e => hs (by rw [e]; exact List.mem_cons_self _ _)
    have step : ∀ s1 : State, o.apply s = s1 → o ≠ Op.isr → s1.TR0 = false →
        s1.time_num = 24 →
        (run (o :: ops) s).time_num = 24 ∧ (run (o :: ops) s).TR0 = false ∧
          Op.isr ∉ o :: ops := by
      intro s1 e hne t1 t2
      subst e
      obtain ⟨a, b, c⟩ := ih (o.apply s) t1 t2 hg.2 hs'
      refine ⟨a, b, fun hm => ?_⟩
      rcases List.mem_cons.1 hm with e | e
      · exact hne e.symm
      · exact c e
    cases o with
    | isr => simp at hg
    | start => exact absurd rfl ho
    | reset => exact step (reset_action s) rfl (by decide) rfl rfl
    | pause => exact step (pause_action s) rfl (by decide) h1 h2
    | resume => exact step (resume_action s) rfl (by decide) h1 h2

/-- The handler computes the same `time_num`, `cnt`, `alarm_flag` and
`pause_flag` whatever the value of `TR0` it is started with. -/
theorem isr_ignores_TR0 (s : State) (b : Bool) :
    (timer0_isr { s with TR0 := b }).time_num = (timer0_isr s).time_num ∧
    (timer0_isr { s with TR0 := b }).cnt = (timer0_isr s).cnt ∧
    (timer0_isr { s with TR0 := b }).alarm_flag = (timer0_isr s).alarm_flag ∧
    (timer0_isr { s with TR0 := b }).pause_flag = (timer0_isr s).pause_flag := by
  simp only [timer0_isr]
  split_ifs <;> simp_all

/-- C12, as stated, fails on the handler: in the reachable state `stopped19`
(Start, 19 handler executions, Reset) `TR0 = 0` and `time_num = 24`, yet one
execution of `timer0_isr` leaves `time_num = 23`; the handler has no test of
`TR0`. -/
theorem C12_counterexample :
    Reachable stopped19 ∧ stopped19.TR0 = false ∧ stopped19.time_num = 24 ∧
      (timer0_isr stopped19).time_num = 23 :=
  ⟨⟨hw0, Op.start :: List.replicate 19 Op.isr ++ [Op.reset], by decide⟩,
    by decide, by decide, by decide⟩

/-- C12 (amended): `timer0_isr` does not test `TR0`.  Its results for
`time_num`, `cnt`, `alarm_flag` and `pause_flag` do not depend on `TR0`; run
in states with `TR0 = 0` (unpaused, `cnt < 20`) it counts and takes
`(cnt + n) / 20` off `time_num` in `n` executions, and one execution at
`cnt = 19` with `time_num > 0` takes one off; from the state left by the
initialisation 20 executions give `time_num = 23` with no Start action.
What the code provides for the hardware gate: the handler never sets `TR0`,
the initialisation leaves `TR0 = 0` and `time_num = 24`, and an operation
sequence without a Start action in which the handler runs only in states
with `TR0 = 1` contains no handler execution and keeps `time_num = 24` and
`TR0 = 0`. -/
theorem C12_gated_until_start :
    (∀ (s : State) (b : Bool),
      (timer0_isr { s with TR0 := b }).time_num = (timer0_isr s).time_num ∧
      (timer0_isr { s with TR0 := b }).cnt = (timer0_isr s).cnt ∧
      (timer0_isr { s with TR0 := b }).alarm_flag = (timer0_isr s).alarm_flag ∧
      (timer0_isr { s with TR0 := b }).pause_flag = (timer0_isr s).pause_flag) ∧
    (∀ (s : State) n, s.TR0 = false → s.cnt < 20 → s.pause_flag = false →
      s.time_num < 256 → (s.cnt + n) / 20 ≤ s.time_num →
      (isr_n n s).time_num = s.time_num - (s.cnt + n) / 20 ∧
        (isr_n n s).cnt = (s.cnt + n) % 20) ∧
    (∀ s : State, s.TR0 = false → s.cnt = 19 → s.pause_flag = false →
      0 < s.time_num → s.time_num < 256 →
      (timer0_isr s).time_num + 1 = s.time_num) ∧
    (∀ hw, (isr_n 20 (init hw)).time_num = 23) ∧
    (∀ s : State, (timer0_isr s).TR0 = true → s.TR0 = true) ∧
    (∀ hw, (init hw).TR0 = false ∧ (init hw).time_num = 24) ∧
    (∀ hw ops, gated ops (init hw) = true → Op.start ∉ ops →
      (run ops (init hw)).time_num = 24 ∧ (run ops (init hw)).TR0 = false ∧
        Op.isr ∉ ops) := by
  refine ⟨isr_ignores_TR0, ?_, ?_, ?_, isr_TR0_of_true, fun hw => ⟨rfl, rfl⟩, ?_⟩
  · intro s n _ hc hp ht hn
    obtain ⟨a, c, _, _⟩ := isr_n_running n s hc hp ht hn
    exact ⟨a, c⟩
  · intro s _ hc hp h0 ht
    have := (isr_second s hc).2.1
    rw [if_pos ⟨h0, hp⟩] at this
    omega
  · intro hw
    have h := (isr_n_running 20 (init hw) (by show (0 : Nat) < 20; decide) rfl
      (by show (24 : Nat) < 256; decide) (by show (0 + 20) / 20 ≤ 24; decide)).1
    rw [h]
    show 24 - (0 + 20) / 20 = 23
    decide
  · intro hw ops hg hs
    exact gated_no_start ops (init hw) rfl rfl hg hs

theorem C12_gated_until_start_witness :
    (isr_n 45 stopped19).time_num = stopped19.time_num - (stopped19.cnt + 45) / 20 ∧
      (isr_n 45 stopped19).cnt = (stopped19.cnt + 45) % 20 :=
  C12_gated_until_start.2.1 stopped19 45 rfl (by decide) rfl (by decide) (by decide)

/-! ## Expiry -/

theorem op_expired (o : Op) (s : State) (ho : o ≠ Op.reset) (ha : s.alarm_flag = true)
    (ht : s.time_num = 0) :
    (o.apply s).alarm_flag = true ∧ (o.apply s).time_num = 0 := by
  cases o with
  | isr =>
    simp only [Op.apply, timer0_isr]
    split_ifs <;> simp_all
  | reset => exact absurd rfl ho
  | start => exact ⟨ha, ht⟩
  | pause => exact ⟨ha, ht⟩
  | resume => exact ⟨ha, ht⟩

theorem run_expired (ops : List Op) :
    ∀ s : State, s.alarm_flag = true → s.time_num = 0 → Op.reset ∉ ops →
      (run ops s).alarm_flag = true ∧ (run ops s).time_num = 0 := by
  induction ops with
  | nil => intro s ha ht _; exact ⟨ha, ht⟩
  | cons o ops ih =>
    intro s ha ht hr
    have ho : o ≠ Op.reset := fun e => hr (by rw [e]; exact List.mem_cons_self _ _)
    obtain ⟨a, t⟩ := op_expired o s ho ha ht
    exact ih (o.apply s) a t (fun hm => hr (List.mem_cons_of_mem _ hm))

theorem isr_alarm_keeps (s : State) (h : s.alarm_flag = true) :
    (timer0_isr s).alarm_flag = true := by
  simp only [timer0_isr]
  split_ifs <;> simp_all

/-- C13 (expiry is terminal until Reset): from every reachable state with
`alarm_flag = 1`, every sequence of handler executions and Start, Pause,
Resume actions ends with `alarm_flag = 1` and `time_num = 0`; the Reset
action clears `alarm_flag`, and it is the only operation that can. -/
theorem C13_expiry_terminal :
    (∀ s : State, Reachable s → s.alarm_flag = true → ∀ ops, Op.reset ∉ ops →
      (run ops s).alarm_flag = true ∧ (run ops s).time_num = 0) ∧
    (∀ s : State, (reset_action s).alarm_flag = false) ∧
    (∀ (o : Op) (s : State), s.alarm_flag = true → (o.apply s).alarm_flag = false →
      o = Op.reset) := by
  refine ⟨?_, fun s => rfl, ?_⟩
  · intro s hr ha ops hn
    obtain ⟨hw, ops0, rfl⟩ := hr
    have hz := (run_invariant (fun s => s.alarm_flag = true ↔ s.time_num = 0)
      op_alarm_iff ops0 (init hw) (by simp [init, main_init, timer0_init, globals_init])).1 ha
    exact run_expired ops _ ha hz hn
  · intro o s ha hf
    cases o with
    | isr => rw [Op.apply, isr_alarm_keeps s ha] at hf; exact absurd hf (by decide)
    | reset => rfl
    | start => rw [Op.apply, start_action, ha] at hf; exact absurd hf (by decide)
    | pause => rw [Op.apply, pause_action, ha] at hf; exact absurd hf (by decide)
    | resume => rw [Op.apply, resume_action, ha] at hf; exact absurd hf (by decide)

theorem run_append (a b : List Op) (s : State) : run (a ++ b) s = run b (run a s) := by
  simp [run, List.foldl_append]

theorem run_replicate_isr (n : Nat) (s : State) :
    run (List.replicate n Op.isr) s = isr_n n s := by
  induction n generalizing s with
  | zero => rfl
  | succ n ih =>
    rw [List.replicate_succ]
    show run (List.replicate n Op.isr) (timer0_isr s) = isr_n (n + 1) s
    rw [ih, isr_n, isr_n, Function.iterate_succ_apply]

theorem reachable_run (ops : List Op) (s : State) (h : Reachable s) :
    Reachable (run ops s) := by
  obtain ⟨hw, ops0, rfl⟩ := h
  exact ⟨hw, ops0 ++ ops, run_append ops0 ops (init hw)⟩

theorem expired_started_reachable : Reachable expired_started := by
  have h := reachable_run (List.replicate 480 Op.isr ++ [Op.start]) running24
    ⟨hw0, [Op.start], rfl⟩
  rw [run_append, run_replicate_isr] at h
  exact h

/-- The sample state `expired_started`, field by field. -/
theorem expired_started_fields :
    expired_started.time_num = 0 ∧ expired_started.alarm_flag = true ∧
      expired_started.TR0 = true ∧ expired_started.cnt = 0 := by
  obtain ⟨a, c, _, d⟩ := isr_n_running 480 running24 (by decide) rfl (by decide) (by decide)
  obtain ⟨d1, _⟩ := d (by decide) (by decide)
  have frame : ∀ s : State, (start_action s).time_num = s.time_num ∧
      (start_action s).alarm_flag = s.alarm_flag ∧ (start_action s).TR0 = true ∧
      (start_action s).cnt = s.cnt := fun s => ⟨rfl, rfl, rfl, rfl⟩
  obtain ⟨f1, f2, f3, f4⟩ := frame (isr_n 480 running24)
  rw [expired_started, f1, f2, f3, f4, a, c, d1]
  decide

theorem C13_expiry_terminal_witness :
    (run [Op.isr, Op.start, Op.pause, Op.isr, Op.resume] expired_started).alarm_flag = true ∧
    (run [Op.isr, Op.start, Op.pause, Op.isr, Op.resume] expired_started).time_num = 0 :=
  C13_expiry_terminal.1 expired_started expired_started_reachable expired_started_fields.2.1
    [Op.isr, Op.start, Op.pause, Op.isr, Op.resume] (by decide)

/-- A handler execution that does not complete a second keeps `time_num`,
`TR0` and `alarm_flag`. -/
theorem isr_no_second (s : State) (hc : (s.cnt + 1) % 65536 ≠ 20) :
    (timer0_isr s).time_num = s.time_num ∧ (timer0_isr s).TR0 = s.TR0 ∧
      (timer0_isr s).alarm_flag = s.alarm_flag := by
  simp [timer0_isr, hc]

/-- C14, as stated, fails: in the reachable state `expired_started` (expiry,
then the start key) one execution of `timer0_isr` leaves `time_num = 0`
while `TR0` is still `1`; the zero test sits inside the `cnt == 20` branch
and this execution only takes `cnt` from 0 to 1. -/
theorem C14_counterexample :
    Reachable expired_started ∧ (timer0_isr expired_started).time_num = 0 ∧
      (timer0_isr expired_started).TR0 = true := by
  obtain ⟨t, _, r, c⟩ := expired_started_fields
  obtain ⟨h1, h2, _⟩ := isr_no_second expired_started (by rw [c]; decide)
  exact ⟨expired_started_reachable, h1.trans t, h2.trans r⟩

/-- C14 (amended): after an execution of `timer0_isr` that completes a second
(the incremented `cnt` equals 20), if `time_num` is `0` then `TR0 = 0` and
`alarm_flag = 1`; an execution that does not complete a second leaves
`time_num`, `TR0` and `alarm_flag` as they were. -/
theorem C14_zero_check_each_second :
    (∀ s : State, (s.cnt + 1) % 65536 = 20 → (timer0_isr s).time_num = 0 →
      (timer0_isr s).TR0 = false ∧ (timer0_isr s).alarm_flag = true) ∧
    (∀ s : State, (s.cnt + 1) % 65536 ≠ 20 →
      (timer0_isr s).time_num = s.time_num ∧ (timer0_isr s).TR0 = s.TR0 ∧
        (timer0_isr s).alarm_flag = s.alarm_flag) := by
  constructor
  · intro s hc hz
    simp only [timer0_isr, hc] at hz ⊢
    split_ifs at hz ⊢ <;> simp_all
  · exact isr_no_second

theorem C14_zero_check_each_second_witness :
    (timer0_isr { running24 with time_num := 1, cnt := 19 }).TR0 = false ∧
      (timer0_isr { running24 with time_num := 1, cnt := 19 }).alarm_flag = true :=
  C14_zero_check_each_second.1 { running24 with time_num := 1, cnt := 19 }
    (by decide) (by decide)

/-! ## Several keys in one scan -/

theorem wait_release_low (line : Pins → Bool) (p : Pins) (h : line p = false) :
    ∀ fuel k, wait_release line (fun _ => p) fuel k = none := by
  intro fuel
  induction fuel with
  | zero => intro k; rfl
  | succ fuel ih => intro k; simp only [wait_release, h, if_true]; exact ih (k + 1)

theorem key_check_fixed (line : Pins → Bool) (action : State → State) (fuel : Nat)
    (p : Pins) (s : State) (k : Nat) :
    key_check line action fuel (fun _ => p) s k =
      if line p = false then none else some (s, k + 1) := by
  by_cases h : line p = false
  · simp [key_check, h, wait_release_low line p h]
  · simp [key_check, h]

/-- With levels that never change, `key_scan` returns only when every line is
high, and then returns the state it was given. -/
theorem key_scan_fixed (fuel : Nat) (p : Pins) (s s' : State)
    (h : key_scan fuel (fun _ => p) s = some s') : p = no_key ∧ s' = s := by
  obtain ⟨a, b, c, d⟩ := p
  simp only [key_scan, key_check_fixed] at h
  cases a <;> cases b <;> cases c <;> cases d <;> simp_all [no_key]

/-- C15, as stated, fails: with the clear key pressed and released and the
start key pressed and released after it, one invocation of `key_scan` on
`paused24` applies Reset and then Start; the state it returns is neither the
given state nor the result of any single action. -/
theorem C15_counterexample :
    key_scan 1 reset_start_press paused24 = some (start_action (reset_action paused24)) ∧
    start_action (reset_action paused24) ≠ paused24 ∧
    start_action (reset_action paused24) ≠ reset_action paused24 ∧
    start_action (reset_action paused24) ≠ start_action paused24 ∧
    start_action (reset_action paused24) ≠ pause_action paused24 ∧
    start_action (reset_action paused24) ≠ resume_action paused24 := by
  decide

/-- One block, in full: it returns when `block_end` does, at that read
instant, with the action applied exactly when the line was confirmed low. -/
theorem key_check_block (line : Pins → Bool) (action : State → State) (fuel : Nat)
    (inp : Nat → Pins) (s : State) (k : Nat) :
    key_check line action fuel inp s k =
      (block_end line fuel inp k).map
        (fun k' => (if confirmed line inp k = true then action s else s, k')) := by
  unfold key_check block_end confirmed next_read delay
  cases h0 : line (inp k) <;> cases h1 : line (inp (k + 1)) <;> simp
  cases wait_release line inp fuel (k + 2) <;> rfl

/-- The whole scan, in full: the four blocks run at the read instants given
by `block_end`, each applying its action exactly when its line is confirmed
low at its own instant. -/
theorem key_scan_blocks (fuel : Nat) (inp : Nat → Pins) (s : State) :
    key_scan fuel inp s =
      (block_end Pins.P3_0 fuel inp 0).bind fun k1 =>
      (block_end Pins.P3_1 fuel inp k1).bind fun k2 =>
      (block_end Pins.P3_2 fuel inp k2).bind fun k3 =>
      (block_end Pins.P3_3 fuel inp k3).map fun _ =>
        (if confirmed Pins.P3_3 inp k3 = true then resume_action else id)
          ((if confirmed Pins.P3_2 inp k2 = true then pause_action else id)
            ((if confirmed Pins.P3_1 inp k1 = true then start_action else id)
              ((if confirmed Pins.P3_0 inp 0 = true then reset_action else id) s))) := by
  unfold key_scan
  simp only [key_check_block]
  cases block_end Pins.P3_0 fuel inp 0 with
  | none => rfl
  | some k1 =>
    simp only [Option.map_some', Option.some_bind]
    cases block_end Pins.P3_1 fuel inp k1 with
    | none => rfl
    | some k2 =>
      simp only [Option.map_some', Option.some_bind]
      cases block_end Pins.P3_2 fuel inp k2 with
      | none => rfl
      | some k3 =>
        simp only [Option.map_some', Option.some_bind]
        cases block_end Pins.P3_3 fuel inp k3 with
        | none => rfl
        | some k4 =>
          simp only [Option.map_some']
          congr 1
          split_ifs <;> rfl

/-- C15 (amended): an invocation of `key_scan` runs its four blocks in the
order Reset, Start, Pause, Resume at the read instants fixed by the input,
and each block applies its action exactly when its line reads low on both
samples at its own instant, so one invocation can apply several actions:
when the clear key is confirmed and the start key is confirmed at the
instant the clear block ends, the returned state has `time_num = 24`,
`alarm_flag = 0`, `P1_0 = 1` from Reset and `TR0 = 1` from Start; with the
four keys pressed in turn all four actions are applied.  When at most one
line is ever low during the invocation the returned state is the given
state or the result of one action; with levels that never change it returns
only when no key is pressed, with the state unchanged. -/
theorem C15_actions_in_order :
    (∀ fuel inp (s : State),
      key_scan fuel inp s =
        (block_end Pins.P3_0 fuel inp 0).bind fun k1 =>
        (block_end Pins.P3_1 fuel inp k1).bind fun k2 =>
        (block_end Pins.P3_2 fuel inp k2).bind fun k3 =>
        (block_end Pins.P3_3 fuel inp k3).map fun _ =>
          (if confirmed Pins.P3_3 inp k3 = true then resume_action else id)
            ((if confirmed Pins.P3_2 inp k2 = true then pause_action else id)
              ((if confirmed Pins.P3_1 inp k1 = true then start_action else id)
                ((if confirmed Pins.P3_0 inp 0 = true then reset_action else id) s)))) ∧
    (∀ fuel inp (s s' : State) k1, key_scan fuel inp s = some s' →
      confirmed Pins.P3_0 inp 0 = true → block_end Pins.P3_0 fuel inp 0 = some k1 →
      confirmed Pins.P3_1 inp k1 = true →
      s'.time_num = 24 ∧ s'.alarm_flag = false ∧ s'.P1_0 = true ∧ s'.TR0 = true) ∧
    (∀ fuel (s : State), 0 < fuel →
      key_scan fuel all_press s =
        some (resume_action (pause_action (start_action (reset_action s))))) ∧
    (∀ fuel inp (s s' : State), key_scan fuel inp s = some s' →
      ((∀ k, (inp k).P3_1 = true ∧ (inp k).P3_2 = true ∧ (inp k).P3_3 = true) ∨
       (∀ k, (inp k).P3_0 = true ∧ (inp k).P3_2 = true ∧ (inp k).P3_3 = true) ∨
       (∀ k, (inp k).P3_0 = true ∧ (inp k).P3_1 = true ∧ (inp k).P3_3 = true) ∨
       (∀ k, (inp k).P3_0 = true ∧ (inp k).P3_1 = true ∧ (inp k).P3_2 = true)) →
      s' = s ∨ s' = reset_action s ∨ s' = start_action s ∨ s' = pause_action s ∨
        s' = resume_action s) ∧
    (∀ fuel (p : Pins) (s s' : State), key_scan fuel (fun _ => p) s = some s' →
      p = no_key ∧ s' = s) := by
  refine ⟨key_scan_blocks, ?_, ?_, ?_, key_scan_fixed⟩
  · intro fuel inp s s' k1 hk c0 e0 c1
    rw [key_scan_blocks, e0] at hk
    simp only [Option.some_bind, c0, c1, if_true] at hk
    cases e1 : block_end Pins.P3_1 fuel inp k1 with
    | none => rw [e1] at hk; simp at hk
    | some k2 =>
      rw [e1] at hk; simp only [Option.some_bind] at hk
      cases e2 : block_end Pins.P3_2 fuel inp k2 with
      | none => rw [e2] at hk; simp at hk
      | some k3 =>
        rw [e2] at hk; simp only [Option.some_bind] at hk
        cases e3 : block_end Pins.P3_3 fuel inp k3 with
        | none => rw [e3] at hk; simp at hk
        | some k4 =>
          rw [e3] at hk
          simp only [Option.map_some', Option.some.injEq] at hk
          rw [← hk]
          split_ifs <;> exact ⟨rfl, rfl, rfl, rfl⟩
  · intro fuel s hf
    obtain ⟨f, rfl⟩ : ∃ f, fuel = f + 1 := ⟨fuel - 1, by omega⟩
    rw [key_scan_blocks]
    have b0 : block_end Pins.P3_0 (f + 1) all_press 0 = some 3 := by
      simp [block_end, confirmed, wait_release, all_press, reset_down, no_key]
    have b1 : block_end Pins.P3_1 (f + 1) all_press 3 = some 6 := by
      simp [block_end, confirmed, wait_release, all_press, start_down, no_key]
    have b2 : block_end Pins.P3_2 (f + 1) all_press 6 = some 9 := by
      simp [block_end, confirmed, wait_release, all_press, no_key]
    have b3 : block_end Pins.P3_3 (f + 1) all_press 9 = some 12 := by
      simp [block_end, confirmed, wait_release, all_press, no_key]
    rw [b0]; simp only [Option.some_bind]
    rw [b1]; simp only [Option.some_bind]
    rw [b2]; simp only [Option.some_bind]
    rw [b3]
    simp [confirmed, all_press, reset_down, start_down]
  · intro fuel inp s s' hk h
    obtain ⟨k1, k2, k3, e⟩ := key_scan_state fuel inp s s' hk
    rw [e, key_scan_effect]
    rcases h with h | h | h | h
    · rw [key_effect_high Pins.P3_3 _ _ _ _ (h k3).2.2, key_effect_high Pins.P3_2 _ _ _ _ (h k2).2.1,
        key_effect_high Pins.P3_1 _ _ _ _ (h k1).1]
      rcases key_effect_cases Pins.P3_0 reset_action inp s 0 with c | c <;> rw [c] <;> simp
    · rw [key_effect_high Pins.P3_3 _ _ _ _ (h k3).2.2, key_effect_high Pins.P3_2 _ _ _ _ (h k2).2.1,
        key_effect_high Pins.P3_0 _ _ _ _ (h 0).1]
      rcases key_effect_cases Pins.P3_1 start_action inp s k1 with c | c <;> rw [c] <;> simp
    · rw [key_effect_high Pins.P3_3 _ _ _ _ (h k3).2.2, key_effect_high Pins.P3_0 _ _ _ _ (h 0).1,
        key_effect_high Pins.P3_1 _ _ _ _ (h k1).2.1]
      rcases key_effect_cases Pins.P3_2 pause_action inp s k2 with c | c <;> rw [c] <;> simp
    · rw [key_effect_high Pins.P3_0 _ _ _ _ (h 0).1, key_effect_high Pins.P3_1 _ _ _ _ (h k1).2.1,
        key_effect_high Pins.P3_2 _ _ _ _ (h k2).2.2]
      rcases key_effect_cases Pins.P3_3 resume_action inp s k3 with c | c <;> rw [c] <;> simp

theorem C15_actions_in_order_witness :
    (start_action (reset_action paused24)).time_num = 24 ∧
      (start_action (reset_action paused24)).alarm_flag = false ∧
      (start_action (reset_action paused24)).P1_0 = true ∧
      (start_action (reset_action paused24)).TR0 = true :=
  C15_actions_in_order.2.1 1 reset_start_press paused24
    (start_action (reset_action paused24)) 3 (by decide) (by decide) (by decide) (by decide)

/-! ## Debounce -/

theorem key_effect_confirmed (line : Pins → Bool) (action : State → State)
    (inp : Nat → Pins) (s : State) (k : Nat) :
    key_effect line action inp s k =
      if confirmed line inp k = true then action s else s := by
  unfold key_effect confirmed
  cases line (inp k) <;> cases line (inp (k + 1)) <;> simp

/-- A block whose line is not low on both samples leaves the state alone and
hands over to the next block, whatever the fuel. -/
theorem key_check_unconfirmed (line : Pins → Bool) (action : State → State) (fuel : Nat)
    (inp : Nat → Pins) (s : State) (k : Nat) (h : confirmed line inp k = false) :
    key_check line action fuel inp s k = some (s, next_read line inp k) := by
  unfold confirmed at h
  unfold key_check next_read delay
  cases h0 : line (inp k) <;> cases h1 : line (inp (k + 1)) <;> simp_all

/-- C16 (debounce): a block of `key_scan` applies its action exactly when its
line reads low on the first sample and on the re-sample after `delay(20)`
(and it then returns once the key is released); a `key_scan` in which no
line is low on both of its samples returns the state it was given, so
`time_num`, `pause_flag`, `alarm_flag`, `TR0`, `cnt` and `P1_0` are
unchanged. -/
theorem C16_debounce :
    (∀ line action fuel inp (s s' : State) k k',
      key_check line action fuel inp s k = some (s', k') →
      s' = if confirmed line inp k = true then action s else s) ∧
    (∀ line (action : State → State) inp (s : State) k, confirmed line inp k = true →
      (∃ r, k ≤ r ∧ line (inp r) = true) →
      ∃ fuel k', key_check line action fuel inp s k = some (action s, k')) ∧
    (∀ fuel inp (s : State),
      confirmed Pins.P3_0 inp 0 = false →
      confirmed Pins.P3_1 inp (next_read Pins.P3_0 inp 0) = false →
      confirmed Pins.P3_2 inp
        (next_read Pins.P3_1 inp (next_read Pins.P3_0 inp 0)) = false →
      confirmed Pins.P3_3 inp
        (next_read Pins.P3_2 inp
          (next_read Pins.P3_1 inp (next_read Pins.P3_0 inp 0))) = false →
      key_scan fuel inp s = some s) := by
  refine ⟨?_, ?_, ?_⟩
  · intro line action fuel inp s s' k k' h
    rw [key_check_state line action fuel inp s s' k k' h, key_effect_confirmed]
  · intro line action inp s k hc hr
    obtain ⟨fuel0, k', h⟩ := key_check_returns line action inp s k hr
    refine ⟨fuel0, k', ?_⟩
    rw [h fuel0 (le_refl _), key_effect_confirmed, if_pos hc]
  · intro fuel inp s h0 h1 h2 h3
    unfold key_scan
    rw [key_check_unconfirmed _ _ _ _ _ _ h0]; simp only []
    rw [key_check_unconfirmed _ _ _ _ _ _ h1]; simp only []
    rw [key_check_unconfirmed _ _ _ _ _ _ h2]; simp only []
    rw [key_check_unconfirmed _ _ _ _ _ _ h3]

theorem C16_debounce_witness : key_scan 0 glitch running24 = some running24 :=
  C16_debounce.2.2 0 glitch running24 (by decide) (by decide) (by decide) (by decide)

/-! ## Segment table -/

/-- C17 (glyphs): with bits 0..6 of a pattern for the segments a..g and bit 7
for the decimal point, a 0 bit lighting the segment, every entry `d` of
`seg_code` has bit `g` clear exactly when segment `g` belongs to the standard
glyph of `d`, bit 7 is set in all ten entries, every entry is a byte, and the
ten patterns are pairwise distinct. -/
theorem C17_segment_glyphs :
    (∀ d, d < 10 → ∀ g, g < 7 → (seg_bit (seg_code.getD d 0) g = 0 ↔ g ∈ glyph d)) ∧
    (∀ d, d < 10 → seg_bit (seg_code.getD d 0) 7 = 1) ∧
    (∀ v, v ∈ seg_code → v < 256) ∧
    seg_code.Nodup := by
  refine ⟨by decide, by decide, by decide, by decide⟩

theorem C17_segment_glyphs_witness :
    seg_bit (seg_code.getD 7 0) 2 = 0 ↔ 2 ∈ glyph 7 :=
  C17_segment_glyphs.1 7 (by decide) 2 (by decide)

/-! ## Invariants of the running program -/

theorem op_cnt_lt (o : Op) (s : State) (h : s.cnt < 20) : (o.apply s).cnt < 20 := by
  cases o with
  | isr =>
    show (timer0_isr s).cnt < 20
    rw [isr_cnt s h]; omega
  | reset => exact h
  | start => exact h
  | pause => exact h
  | resume => exact h

theorem key_effect_cnt (line : Pins → Bool) (o : Op) (ho : o ≠ Op.isr) (inp : Nat → Pins)
    (s : State) (k : Nat) : (key_effect line o.apply inp s k).cnt = s.cnt := by
  unfold key_effect
  split_ifs
  · cases o with
    | isr => exact absurd rfl ho
    | reset => rfl
    | start => rfl
    | pause => rfl
    | resume => rfl
  · rfl

theorem key_scan_effect_cnt (inp : Nat → Pins) (s : State) (k1 k2 k3 : Nat) :
    (key_scan_effect inp s k1 k2 k3).cnt = s.cnt := by
  unfold key_scan_effect
  exact (key_effect_cnt Pins.P3_3 Op.resume (by decide) inp _ k3).trans
    ((key_effect_cnt Pins.P3_2 Op.pause (by decide) inp _ k2).trans
      ((key_effect_cnt Pins.P3_1 Op.start (by decide) inp _ k1).trans
        (key_effect_cnt Pins.P3_0 Op.reset (by decide) inp s 0)))

/-- In every state of the running program `time_num ≤ 99` and `cnt < 20`. -/
theorem running_inv (s : State) (h : Running s) : s.time_num ≤ 99 ∧ s.cnt < 20 := by
  induction h with
  | entry hw => exact ⟨by simp [init, main_init, timer0_init, globals_init],
      by simp [init, main_init, timer0_init, globals_init]⟩
  | op o s _ ih => exact ⟨op_time_le o s ih.1, op_cnt_lt o s ih.2⟩
  | scan fuel inp s s' _ hk ih =>
    obtain ⟨k1, k2, k3, e⟩ := key_scan_state fuel inp s s' hk
    rw [e]
    exact ⟨key_scan_effect_time_le inp s k1 k2 k3 ih.1, by rw [key_scan_effect_cnt]; exact ih.2⟩
  | show_time s s' w _ hd ih =>
    rw [display_eq s.time_num s ih.1] at hd
    have e : s' = { s with P2 := 0x02, P0 := encode (s.time_num % 10) } := by
      simp only [Option.some.injEq, Prod.mk.injEq] at hd
      exact hd.1.symm
    rw [e]; exact ih
  | buzzer s _ ih => rw [alarm_ctrl_eq]; exact ih

theorem running_of_ops (ops : List Op) : ∀ s : State, Running s → Running (run ops s) := by
  induction ops with
  | nil => intro s h; exact h
  | cons o ops ih => intro s h; exact ih (o.apply s) (Running.op o s h)

theorem running_of_reachable (s : State) (h : Reachable s) : Running s := by
  obtain ⟨hw, ops, rfl⟩ := h
  exact running_of_ops ops (init hw) (Running.entry hw)

/-- C18 (lookups in bounds): for `num ≤ 99` both indices `num / 10` and
`num % 10` are inside the 10-entry table and `display` returns; in every
state of the running program `time_num ≤ 99`, so every `display(time_num)`
call of the loop returns and an iteration of the loop can only fail to
return through `key_scan`; the failing branch is there for `num = 100`. -/
theorem C18_lookups_in_bounds :
    (∀ num, num ≤ 99 → num / 10 < seg_code.length ∧ num % 10 < seg_code.length) ∧
    (∀ num (s : State), num ≤ 99 → ∃ r, display num s = some r) ∧
    (∀ s : State, Reachable s → Running s) ∧
    (∀ s : State, Running s → s.time_num ≤ 99 ∧ ∃ r, display s.time_num s = some r) ∧
    (∀ fuel inp (s : State), Running s → main_iter fuel inp s = none →
      key_scan fuel inp s = none) ∧
    (∀ s : State, display 100 s = none) := by
  refine ⟨?_, ?_, running_of_reachable, ?_, ?_, ?_⟩
  · intro num h
    have : seg_code.length = 10 := rfl
    omega
  · intro num s h
    exact ⟨_, display_eq num s h⟩
  · intro s h
    exact ⟨(running_inv s h).1, _, display_eq s.time_num s (running_inv s h).1⟩
  · intro fuel inp s h hm
    cases hk : key_scan fuel inp s with
    | none => rfl
    | some s1 =>
      have h1 : Running s1 := Running.scan fuel inp s s1 h hk
      unfold main_iter at hm
      rw [hk] at hm; simp only [] at hm
      rw [display_eq s1.time_num s1 (running_inv s1 h1).1] at hm
      simp at hm
  · intro s
    simp [display, seg_code]

theorem C18_lookups_in_bounds_witness :
    expired_started.time_num ≤ 99 ∧
      ∃ r, display expired_started.time_num expired_started = some r :=
  C18_lookups_in_bounds.2.2.2.1 expired_started
    (running_of_reachable expired_started expired_started_reachable)

/-! ## Tick counter -/

/-- C19 (tick-counter invariant): in every reachable state (and every state
of the running program) `cnt` is in `0..19`; one execution of `timer0_isr`
maps `cnt = c` in that range to `(c + 1) % 20`, clearing it exactly when
`c = 19`; started at `cnt = 0` the counter is back at `0` after exactly the
multiples of 20 executions; the incremented 16-bit value never exceeds 20,
so it does not wrap. -/
theorem C19_tick_counter :
    (∀ s : State, Reachable s → s.cnt < 20) ∧
    (∀ s : State, Running s → s.cnt < 20) ∧
    (∀ s : State, s.cnt < 20 → (timer0_isr s).cnt = (s.cnt + 1) % 20) ∧
    (∀ s : State, s.cnt < 20 → ((timer0_isr s).cnt = 0 ↔ s.cnt = 19)) ∧
    (∀ (s : State) n, s.cnt = 0 → ((isr_n n s).cnt = 0 ↔ n % 20 = 0)) ∧
    (∀ s : State, Reachable s →
      (s.cnt + 1) % 65536 = s.cnt + 1 ∧ s.cnt + 1 ≤ 20) := by
  refine ⟨fun s h => (running_inv s (running_of_reachable s h)).2,
    fun s h => (running_inv s h).2, isr_cnt, ?_, ?_, ?_⟩
  · intro s h
    rw [isr_cnt s h]; omega
  · intro s n h
    rw [isr_n_cnt n s (by omega), h]; omega
  · intro s h
    have hc := (running_inv s (running_of_reachable s h)).2
    omega

theorem C19_tick_counter_witness : expired_started.cnt < 20 :=
  C19_tick_counter.1 expired_started expired_started_reachable

/-- C20 (Reset keeps the tick counter): Reset, Start, Pause and Resume leave
`cnt` unchanged, so from the state produced by Reset at `cnt = c` (`c` in
`0..19`) followed by Start, `time_num` is still `24` after fewer than
`20 - c` executions of `timer0_isr` and is `23` after exactly `20 - c`;
that is 20 executions only when `c = 0`. -/
theorem C20_reset_keeps_cnt :
    (∀ s : State, (reset_action s).cnt = s.cnt ∧ (start_action s).cnt = s.cnt ∧
      (pause_action s).cnt = s.cnt ∧ (resume_action s).cnt = s.cnt) ∧
    (∀ (s : State) c, s.cnt = c → c < 20 →
      (∀ n, n < 20 - c → (isr_n n (start_action (reset_action s))).time_num = 24) ∧
      (isr_n (20 - c) (start_action (reset_action s))).time_num = 23 ∧
      (20 - c = 20 ↔ c = 0)) := by
  refine ⟨fun s => ⟨rfl, rfl, rfl, rfl⟩, ?_⟩
  intro s c hc hlt
  have h0 : (start_action (reset_action s)).cnt = c := hc
  have ht : (start_action (reset_action s)).time_num = 24 := rfl
  have hp : (start_action (reset_action s)).pause_flag = false := rfl
  refine ⟨?_, ?_, by omega⟩
  · intro n hn
    have := (isr_n_running n (start_action (reset_action s)) (by omega) hp (by omega)
      (by rw [h0, ht]; omega)).1
    rw [this, h0, ht]; omega
  · have := (isr_n_running (20 - c) (start_action (reset_action s)) (by omega) hp (by omega)
      (by rw [h0, ht]; omega)).1
    rw [this, h0, ht]; omega

theorem C20_reset_keeps_cnt_witness :
    (∀ n, n < 20 - 19 → (isr_n n (start_action (reset_action stopped19))).time_num = 24) ∧
    (isr_n (20 - 19) (start_action (reset_action stopped19))).time_num = 23 ∧
    (20 - 19 = 20 ↔ 19 = 0) :=
  C20_reset_keeps_cnt.2 stopped19 19 rfl (by decide)

end Ceshi
